import Mathlib

/-!
# Verification of the adversarial-attack library

Shallow embedding of `adversarial_ml/adversarial_attacks.py` (TensorFlow
adversarial-example generators: FGSM, One Step Least Likely, Basic Iterative
Method, Iterative Least Likely, Random Plus FGSM) and proofs of the spec's
claims about it.

Modelling choices:
* An image batch is flattened to a `List ℚ` (all attack arithmetic is
  element-wise); a prediction batch keeps its (n, k) structure as
  `List (List ℚ)`; a label batch is a `List ℕ`.
* The classifier together with reverse-mode differentiation of the
  cross-entropy loss is the external collaborator (`Model`): `forward` is the
  batch forward pass and `gradLoss y X` is the gradient, with respect to `X`,
  of `SparseCategoricalCrossentropy(y, forward X)`, the classifier's own
  parameters held constant (this is what the `tf.GradientTape` block with
  `watch_accessed_variables=False` plus `tape.watch(X)` computes).
* `tf.random.uniform` is modelled by passing the uniform sample `u` (values
  in [0,1]) as an explicit argument to `RandomPlusFgsm.call`.
* Python methods may mutate `self`; each `__call__` is therefore translated
  state-passingly as `config → inputs → config × output`, so that absence of
  mutation is a provable statement rather than an assumption.
-/

/-- Image batch, flattened element-wise. -/
abbrev Img := List ℚ

/-- Prediction batch of shape (n, k): one row of class scores per example. -/
abbrev Pred := List (List ℚ)

/-- Label batch: one integer class index per example. -/
abbrev Labels := List ℕ

/-- Element-wise sign as computed by `tf.sign`: -1, 0 or +1. -/
def tfSign (x : ℚ) : ℚ := if x < 0 then -1 else if 0 < x then 1 else 0

/-- `tf.sign` applied to a tensor. -/
def signT (t : Img) : Img := t.map tfSign

/-- Scalar clip as computed by `tf.clip_by_value`: first clip above at `hi`,
then below at `lo` (TF computes `maximum(minimum(t, hi), lo)`). -/
def clip1 (x lo hi : ℚ) : ℚ := max lo (min x hi)

/-- `tf.clip_by_value` with scalar bounds. -/
def clipC (t : Img) (lo hi : ℚ) : Img := t.map (fun v => clip1 v lo hi)

/-- `tf.clip_by_value` with tensor bounds (used for the L-infinity ball
projection onto `[clean - eps, clean + eps]`). -/
def clipT : Img → Img → Img → Img
  | x :: xs, l :: ls, h :: hs => clip1 x l h :: clipT xs ls hs
  | _, _, _ => []

/-- Element-wise tensor addition. -/
def addT (a b : Img) : Img := List.zipWith (fun x y => x + y) a b

/-- Element-wise tensor subtraction. -/
def subT (a b : Img) : Img := List.zipWith (fun x y => x - y) a b

/-- Scalar times tensor. -/
def smulT (c : ℚ) (t : Img) : Img := t.map (fun v => c * v)

/-- Index of the smallest entry of a row, earliest index on ties, as computed
by `tf.math.argmin` along axis 1. Auxiliary accumulator recursion. -/
def argminAux : List ℚ → ℕ → ℕ → ℚ → ℕ
  | [], _, bi, _ => bi
  | v :: vs, i, bi, bv =>
      if v < bv then argminAux vs (i + 1) i v else argminAux vs (i + 1) bi bv

/-- Index of the smallest entry of a row (`tf.math.argmin` along axis 1 for a
single example); 0 on the empty row. -/
def argminIdx : List ℚ → ℕ
  | [] => 0
  | v :: vs => argminAux vs 1 0 v

/-- The external classifier collaborator: batch forward pass plus the
reverse-mode gradient capability for the cross-entropy loss. `gradLoss y X`
is the gradient w.r.t. `X` of `loss_obj(y, forward X)` with the classifier's
parameters treated as constants. -/
structure Model where
  forward : Img → Pred
  gradLoss : Labels → Img → Img

/-- The loss object stored on every attack; `__init__` always installs
`tf.keras.losses.SparseCategoricalCrossentropy()`. -/
inductive LossFn
  | sparseCategoricalCrossentropy

/-- Base class `AdversarialAttack`: common fields set by `__init__`. -/
structure AdversarialAttack where
  loss_obj : LossFn
  model : Model
  eps : ℚ
  specifics : Option String
  name : Option String

/-- `AdversarialAttack.__init__`. -/
def AdversarialAttack.init (model : Model) (eps : ℚ) : AdversarialAttack :=
  { loss_obj := LossFn.sparseCategoricalCrossentropy
    model := model
    eps := eps
    specifics := none
    name := none }

/-- Fixed-point decimal rendering with `d` digits, modelling Python's
`"{:.2f}"` / `"{:.4f}"` format specifiers (rounding to nearest). -/
def fmtFixed (d : ℕ) (q : ℚ) : String :=
  let p : ℤ := (10 : ℤ) ^ d
  let n : ℤ := round (q * (p : ℚ))
  let sgn := if n < 0 then "-" else ""
  let m : ℕ := n.natAbs
  let fs := toString (m % p.natAbs)
  sgn ++ toString (m / p.natAbs) ++ "."
      ++ String.mk (List.replicate (d - fs.length) '0') ++ fs

/-- Class `Fgsm`. -/
structure Fgsm extends AdversarialAttack

/-- `Fgsm.__init__`. -/
def Fgsm.init (model : Model) (eps : ℚ) : Fgsm :=
  { toAdversarialAttack :=
      { AdversarialAttack.init model eps with
        name := some "FGSM"
        specifics := some ("FGSM - eps: " ++ fmtFixed 2 eps) } }

/-- `Fgsm.__call__`: one gradient evaluation at the clean batch, add
`eps * sign(gradient)`, clip to [0,1]. Returns `(self, result)`. -/
def Fgsm.call (a : Fgsm) (clean_images : Img) (true_labels : Labels) :
    Fgsm × Img :=
  let gradients := a.model.gradLoss true_labels clean_images
  let perturbations := smulT a.eps (signT gradients)
  let adv_examples := addT clean_images perturbations
  let adv_examples := clipC adv_examples 0 1
  (a, adv_examples)

/-- Class `OneStepLeastLikely`. -/
structure OneStepLeastLikely extends AdversarialAttack

/-- `OneStepLeastLikely.__init__`. -/
def OneStepLeastLikely.init (model : Model) (eps : ℚ) : OneStepLeastLikely :=
  { toAdversarialAttack :=
      { AdversarialAttack.init model eps with
        name := some "One Step Least Likely (Step 1.1)"
        specifics := some ("One Step Least Likely (Step 1.1) - eps: "
          ++ fmtFixed 2 eps) } }

/-- `OneStepLeastLikely.__call__`: no label argument; `y_ll` is the
per-example argmin of the prediction on the clean batch; the perturbation is
subtracted. Returns `(self, result)`. -/
def OneStepLeastLikely.call (a : OneStepLeastLikely) (clean_images : Img) :
    OneStepLeastLikely × Img :=
  let prediction := a.model.forward clean_images
  let y_ll := prediction.map argminIdx
  let gradients := a.model.gradLoss y_ll clean_images
  let perturbation := smulT a.eps (signT gradients)
  let X := subT clean_images perturbation
  let X := clipC X 0 1
  (a, X)

/-- Class `BasicIter`. -/
structure BasicIter extends AdversarialAttack where
  alpha : ℚ
  num_iter : ℕ

/-- `BasicIter.__init__`. -/
def BasicIter.init (model : Model) (eps alpha : ℚ) (num_iter : ℕ) :
    BasicIter :=
  { toAdversarialAttack :=
      { AdversarialAttack.init model eps with
        name := some "Basic Iterative Method"
        specifics := some ("Basic Iterative Method - eps: " ++ fmtFixed 2 eps
          ++ " - alpha: " ++ fmtFixed 4 alpha
          ++ " - num_iter: " ++ toString num_iter) }
    alpha := alpha
    num_iter := num_iter }

/-- Body of the `for i in tf.range(self.num_iter)` loop of
`BasicIter.__call__`: gradient step `+ alpha * sign`, projection onto the
eps-ball around `clean_images`, then the [0,1] clip. -/
def BasicIter.step (a : BasicIter) (clean_images : Img) (true_labels : Labels)
    (X : Img) : Img :=
  let gradients := a.model.gradLoss true_labels X
  let perturbation := smulT a.alpha (signT gradients)
  let X := addT X perturbation
  let X := clipT X (clean_images.map (fun v => v - a.eps))
      (clean_images.map (fun v => v + a.eps))
  clipC X 0 1

/-- `BasicIter.__call__`: `X` starts at the clean batch and the loop body runs
`num_iter` times. Returns `(self, result)`. -/
def BasicIter.call (a : BasicIter) (clean_images : Img) (true_labels : Labels) :
    BasicIter × Img :=
  (a, (a.step clean_images true_labels)^[a.num_iter] clean_images)

/-- Class `IterativeLeastLikely`. -/
structure IterativeLeastLikely extends AdversarialAttack where
  alpha : ℚ
  num_iter : ℕ

/-- `IterativeLeastLikely.__init__`. -/
def IterativeLeastLikely.init (model : Model) (eps alpha : ℚ) (num_iter : ℕ) :
    IterativeLeastLikely :=
  { toAdversarialAttack :=
      { AdversarialAttack.init model eps with
        name := some "Iterative Least Likely (Iter 1.1)"
        specifics := some ("Iterative Least Likely (Iter 1.1) - eps: "
          ++ fmtFixed 2 eps ++ " - alpha: " ++ fmtFixed 4 alpha
          ++ " - num_iter: " ++ toString num_iter) }
    alpha := alpha
    num_iter := num_iter }

/-- Body of the loop of `IterativeLeastLikely.__call__`: identical to
`BasicIter.step` except the labels are the fixed pseudo-targets `y_ll` and the
perturbation is subtracted. -/
def IterativeLeastLikely.step (a : IterativeLeastLikely) (clean_images : Img)
    (y_ll : Labels) (X : Img) : Img :=
  let gradients := a.model.gradLoss y_ll X
  let perturbation := smulT a.alpha (signT gradients)
  let X := subT X perturbation
  let X := clipT X (clean_images.map (fun v => v - a.eps))
      (clean_images.map (fun v => v + a.eps))
  clipC X 0 1

/-- `IterativeLeastLikely.__call__`: `y_ll` is computed once, before the loop,
from the prediction on the original clean batch; then the loop body runs
`num_iter` times. Returns `(self, result)`. -/
def IterativeLeastLikely.call (a : IterativeLeastLikely)
    (clean_images : Img) : IterativeLeastLikely × Img :=
  let prediction := a.model.forward clean_images
  let y_ll := prediction.map argminIdx
  (a, (a.step clean_images y_ll)^[a.num_iter] clean_images)

/-- Class `RandomPlusFgsm`. -/
structure RandomPlusFgsm extends AdversarialAttack where
  alpha : ℚ

/-- `RandomPlusFgsm.__init__`. -/
def RandomPlusFgsm.init (model : Model) (eps alpha : ℚ) : RandomPlusFgsm :=
  { toAdversarialAttack :=
      { AdversarialAttack.init model eps with
        name := some "Random Plus FGSM"
        specifics := some ("Random Plus FGSM - eps: " ++ fmtFixed 2 eps
          ++ " - alpha: " ++ fmtFixed 4 alpha) }
    alpha := alpha }

/-- The initial random perturbation
`2 * eps * tf.random.uniform(shape) - eps`, element-wise in the uniform
sample `u`. -/
def randomDelta (eps : ℚ) (u : Img) : Img :=
  u.map (fun v => 2 * eps * v - eps)

/-- `RandomPlusFgsm.__call__` with the uniform sample `u` (one value in [0,1]
per element, `tf.random.uniform(shape=clean_images.shape)`) passed
explicitly: random start, one gradient evaluation at the randomized point,
one `alpha * sign` step, ball projection, [0,1] clip. Returns
`(self, result)`. -/
def RandomPlusFgsm.call (a : RandomPlusFgsm) (u : Img) (clean_images : Img)
    (true_labels : Labels) : RandomPlusFgsm × Img :=
  let random_delta := randomDelta a.eps u
  let X := addT clean_images random_delta
  let gradients := a.model.gradLoss true_labels X
  let perturbation := smulT a.alpha (signT gradients)
  let X := addT X perturbation
  let X := clipT X (clean_images.map (fun v => v - a.eps))
      (clean_images.map (fun v => v + a.eps))
  let X := clipC X 0 1
  (a, X)

/-- Spec formula for FGSM (spec 4.2): `clip(X + eps * sign(g), 0, 1)` with
`g` the gradient of the loss against the true labels at `X`. -/
def fgsmSpec (m : Model) (eps : ℚ) (X : Img) (y : Labels) : Img :=
  clipC (addT X (smulT eps (signT (m.gradLoss y X)))) 0 1

/-- Spec formula for OneStepLeastLikely (spec 4.3): `y_ll` is the per-example
argmin of the prediction on `X`, output is `clip(X - eps * sign(g), 0, 1)`. -/
def oneStepLeastLikelySpec (m : Model) (eps : ℚ) (X : Img) : Img :=
  let y_ll := (m.forward X).map argminIdx
  clipC (subT X (smulT eps (signT (m.gradLoss y_ll X)))) 0 1

/-- One spec iteration of BasicIter (spec 4.4 steps 1-4): gradient step,
projection into `[X0 - eps, X0 + eps]`, clip to [0,1]. -/
def basicIterUpdate (m : Model) (eps alpha : ℚ) (X0 : Img) (y : Labels)
    (X : Img) : Img :=
  let X1 := addT X (smulT alpha (signT (m.gradLoss y X)))
  let X2 := clipT X1 (X0.map (fun v => v - eps)) (X0.map (fun v => v + eps))
  clipC X2 0 1

/-- Spec iterate for BasicIter: `n` applications of `basicIterUpdate`
starting from `X0`. -/
def basicIterSpec (m : Model) (eps alpha : ℚ) (X0 : Img) (y : Labels) :
    ℕ → Img
  | 0 => X0
  | n + 1 => basicIterUpdate m eps alpha X0 y (basicIterSpec m eps alpha X0 y n)

/-- One spec iteration of IterativeLeastLikely (spec 4.5): like
`basicIterUpdate` but with the perturbation subtracted and the fixed
pseudo-targets `y_ll`. -/
def iterLLUpdate (m : Model) (eps alpha : ℚ) (X0 : Img) (y_ll : Labels)
    (X : Img) : Img :=
  let X1 := subT X (smulT alpha (signT (m.gradLoss y_ll X)))
  let X2 := clipT X1 (X0.map (fun v => v - eps)) (X0.map (fun v => v + eps))
  clipC X2 0 1

/-- Spec loop for IterativeLeastLikely at fixed pseudo-targets. -/
def iterLLLoop (m : Model) (eps alpha : ℚ) (X0 : Img) (y_ll : Labels) :
    ℕ → Img
  | 0 => X0
  | n + 1 => iterLLUpdate m eps alpha X0 y_ll (iterLLLoop m eps alpha X0 y_ll n)

/-- Spec formula for IterativeLeastLikely (spec 4.5): `y_ll` computed once
from the original clean batch, then `n` iterations. -/
def iterativeLeastLikelySpec (m : Model) (eps alpha : ℚ) (X0 : Img) (n : ℕ) :
    Img :=
  iterLLLoop m eps alpha X0 ((m.forward X0).map argminIdx) n

/-- Spec formula for RandomPlusFgsm (spec 4.6): random start `X0 + delta`,
gradient evaluated at the randomized point, one `alpha * sign` step, ball
projection around `X0`, [0,1] clip. -/
def randomPlusFgsmSpec (m : Model) (eps alpha : ℚ) (u X0 : Img) (y : Labels) :
    Img :=
  let Xr := addT X0 (randomDelta eps u)
  clipC (clipT (addT Xr (smulT alpha (signT (m.gradLoss y Xr))))
      (X0.map (fun v => v - eps)) (X0.map (fun v => v + eps))) 0 1

/-! ### Element-wise access lemmas -/

/-- Accessing a mapped list below its length. -/
lemma getD_map_lt (f : ℚ → ℚ) (l : List ℚ) :
    ∀ i, i < l.length → (l.map f).getD i 0 = f (l.getD i 0) := by
  induction l with
  | nil => intro i h; simp at h
  | cons a t ih =>
    intro i h
    cases i with
    | zero => simp
    | succ j =>
      simp only [List.map_cons, List.getD_cons_succ]
      exact ih j (by simp only [List.length_cons] at h; omega)

/-- Accessing a zipWith below its length, with the index bounds it implies. -/
lemma getD_zipWith_lt (f : ℚ → ℚ → ℚ) (a : List ℚ) :
    ∀ (b : List ℚ) (i : ℕ), i < (List.zipWith f a b).length →
      i < a.length ∧ i < b.length ∧
        (List.zipWith f a b).getD i 0 = f (a.getD i 0) (b.getD i 0) := by
  induction a with
  | nil => intro b i h; simp at h
  | cons x xs ih =>
    intro b i h
    cases b with
    | nil => simp at h
    | cons y ys =>
      cases i with
      | zero => simp
      | succ j =>
        simp only [List.zipWith_cons_cons, List.length_cons,
          List.getD_cons_succ] at h ⊢
        obtain ⟨h1, h2, h3⟩ := ih ys j (by omega)
        exact ⟨by omega, by omega, h3⟩

/-- Accessing a `clipT` below its length, with the index bounds it implies. -/
lemma getD_clipT_lt (a : List ℚ) :
    ∀ (b c : List ℚ) (i : ℕ), i < (clipT a b c).length →
      i < a.length ∧ i < b.length ∧ i < c.length ∧
        (clipT a b c).getD i 0 = clip1 (a.getD i 0) (b.getD i 0) (c.getD i 0) := by
  induction a with
  | nil => intro b c i h; simp [clipT] at h
  | cons x xs ih =>
    intro b c i h
    cases b with
    | nil => simp [clipT] at h
    | cons l ls =>
      cases c with
      | nil => simp [clipT] at h
      | cons u us =>
        cases i with
        | zero => simp [clipT]
        | succ j =>
          simp only [clipT, List.length_cons, List.getD_cons_succ] at h ⊢
          obtain ⟨h1, h2, h3, h4⟩ := ih ls us j (by omega)
          exact ⟨by omega, by omega, by omega, h4⟩

/-- `clip1` lands in `[lo, hi]` whenever `lo ≤ hi`. -/
lemma clip1_mem (w lo hi : ℚ) (h : lo ≤ hi) :
    lo ≤ clip1 w lo hi ∧ clip1 w lo hi ≤ hi := by
  unfold clip1
  constructor
  · exact le_max_left _ _
  · exact max_le h (min_le_right _ _)

/-- `clip1` with equal bounds is constant. -/
lemma clip1_same (w c : ℚ) : clip1 w c c = c := by
  unfold clip1
  rcases le_total w c with h | h
  · rw [min_eq_left h]; exact max_eq_left h
  · rw [min_eq_right h, max_self]

/-- Clipping to [0,1] a value already within `eps` of a pixel `c ∈ [0,1]`
stays within `eps` of `c` and lands in [0,1]. -/
lemma clip01_ball (c w eps : ℚ) (h0 : 0 ≤ c) (h1 : c ≤ 1)
    (hlo : c - eps ≤ w) (hhi : w ≤ c + eps) :
    |clip1 w 0 1 - c| ≤ eps ∧ 0 ≤ clip1 w 0 1 ∧ clip1 w 0 1 ≤ 1 := by
  obtain ⟨hb0, hb1⟩ := clip1_mem w 0 1 (by norm_num)
  refine ⟨?_, hb0, hb1⟩
  rw [abs_sub_le_iff]
  unfold clip1 at hb0 hb1 ⊢
  constructor
  · have : max 0 (min w 1) ≤ max 0 w := by
      exact max_le_max le_rfl (min_le_left _ _)
    have hw : max 0 w ≤ max 0 (c + eps) := max_le_max le_rfl hhi
    have hc : max 0 (c + eps) = c + eps := max_eq_right (by linarith)
    linarith [this.trans (hw.trans_eq hc)]
  · have hle : min (c - eps) 1 ≤ min w 1 := min_le_min hlo le_rfl
    have hm : min (c - eps) 1 = c - eps := min_eq_left (by linarith)
    have : c - eps ≤ max 0 (min w 1) :=
      le_trans (hm ▸ hle) (le_max_right _ _)
    linarith

/-- The sign is bounded by one in absolute value. -/
lemma abs_tfSign_le (z : ℚ) : |tfSign z| ≤ 1 := by
  unfold tfSign
  split
  · norm_num
  · split <;> norm_num

/-- All pixels of a batch lie in [0,1]. -/
def Range01 (t : Img) : Prop :=
  ∀ i, i < t.length → 0 ≤ t.getD i 0 ∧ t.getD i 0 ≤ 1

/-- Every pixel of `out` is within `eps` of the corresponding pixel of
`clean` and within [0,1]: the adversarial-batch invariant. -/
def BallRange (eps : ℚ) (clean out : Img) : Prop :=
  ∀ i, i < out.length →
    |out.getD i 0 - clean.getD i 0| ≤ eps ∧
      0 ≤ out.getD i 0 ∧ out.getD i 0 ≤ 1

/-- The tail shared by all ball-projecting attacks — clip to
`[clean - eps, clean + eps]` then to [0,1] — establishes `BallRange`
whatever tensor `W` it is applied to. -/
lemma proj_ballRange (eps : ℚ) (clean W : Img) (heps : 0 ≤ eps)
    (hclean : Range01 clean) :
    BallRange eps clean
      (clipC (clipT W (clean.map (fun v => v - eps))
        (clean.map (fun v => v + eps))) 0 1) := by
  intro i hi
  rw [clipC, List.length_map] at hi
  obtain ⟨hW, hlo, hhi, hget⟩ := getD_clipT_lt W _ _ i hi
  rw [List.length_map] at hlo
  have hmap_lo := getD_map_lt (fun v => v - eps) clean i hlo
  have hmap_hi := getD_map_lt (fun v => v + eps) clean i hlo
  rw [clipC, getD_map_lt _ _ i hi, hget, hmap_lo, hmap_hi]
  obtain ⟨hc0, hc1⟩ := hclean i hlo
  obtain ⟨hin_lo, hin_hi⟩ :=
    clip1_mem (W.getD i 0) (clean.getD i 0 - eps) (clean.getD i 0 + eps)
      (by linarith)
  exact clip01_ball _ _ _ hc0 hc1 hin_lo hin_hi

/-! ### Claim theorems -/

/-- C1: for BasicIter, IterativeLeastLikely and RandomPlusFgsm, on a clean
batch with values in [0,1] and an admissible (nonnegative) perturbation
budget, every element of the result is within `eps` of the corresponding
clean element and within [0,1]; for the two iterative attacks this holds for
the running iterate after every iteration `k` of the loop, not only for the
final result (the final results are the iterates at `k = num_iter`). -/
theorem C1_ball_and_range_invariant (aB : BasicIter) (aI : IterativeLeastLikely)
    (aR : RandomPlusFgsm) (clean u : Img) (y : Labels)
    (hclean : Range01 clean) (hB : 0 ≤ aB.eps) (hI : 0 ≤ aI.eps)
    (hR : 0 ≤ aR.eps) :
    (∀ k, BallRange aB.eps clean ((aB.step clean y)^[k] clean)) ∧
    (∀ k, BallRange aI.eps clean
      ((aI.step clean ((aI.model.forward clean).map argminIdx))^[k] clean)) ∧
    BallRange aB.eps clean (aB.call clean y).2 ∧
    BallRange aI.eps clean (aI.call clean).2 ∧
    BallRange aR.eps clean (aR.call u clean y).2 := by
  have base : ∀ eps : ℚ, 0 ≤ eps → BallRange eps clean clean := by
    intro eps heps i hi
    obtain ⟨h0, h1⟩ := hclean i hi
    exact ⟨by simpa using heps, h0, h1⟩
  have hBstep : ∀ X, BallRange aB.eps clean (aB.step clean y X) := by
    intro X
    exact proj_ballRange aB.eps clean _ hB hclean
  have hIstep : ∀ X, BallRange aI.eps clean
      (aI.step clean ((aI.model.forward clean).map argminIdx) X) := by
    intro X
    exact proj_ballRange aI.eps clean _ hI hclean
  have hBk : ∀ k, BallRange aB.eps clean ((aB.step clean y)^[k] clean) := by
    intro k
    cases k with
    | zero => exact base aB.eps hB
    | succ n => rw [Function.iterate_succ_apply']; exact hBstep _
  have hIk : ∀ k, BallRange aI.eps clean
      ((aI.step clean ((aI.model.forward clean).map argminIdx))^[k] clean) := by
    intro k
    cases k with
    | zero => exact base aI.eps hI
    | succ n => rw [Function.iterate_succ_apply']; exact hIstep _
  refine ⟨hBk, hIk, hBk aB.num_iter, hIk aI.num_iter, ?_⟩
  exact proj_ballRange aR.eps clean _ hR hclean

/-- C2: `Fgsm.__call__` returns exactly
`clip(X + eps * sign(g), 0, 1)` where `g` is the gradient with respect to
`X` of the cross-entropy loss of the classifier's prediction on `X` against
the true labels, obtained from a single invocation of the gradient
collaborator. -/
theorem C2_fgsm_formula (a : Fgsm) (X : Img) (y : Labels) :
    (a.call X y).2 = fgsmSpec a.model a.eps X y := rfl

/-- C3: `OneStepLeastLikely.__call__` takes no label argument, derives the
pseudo-target as the per-example argmin of the classifier's prediction on
`X`, and returns exactly `clip(X - eps * sign(g), 0, 1)` with `g` the
gradient of the loss against that pseudo-target (perturbation subtracted,
unlike FGSM). -/
theorem C3_one_step_least_likely_formula (a : OneStepLeastLikely) (X : Img) :
    (a.call X).2 = oneStepLeastLikelySpec a.model a.eps X := rfl

/-- C4: `BasicIter.__call__` initializes the iterate to the clean batch and
performs exactly `num_iter` iterations of: gradient of the loss against the
true labels, `X ← X + alpha * sign(g)`, clip into `[X0 - eps, X0 + eps]`,
clip into [0,1]; the final iterate is returned. -/
theorem C4_basic_iter_formula (a : BasicIter) (X0 : Img) (y : Labels) :
    (a.call X0 y).2 = basicIterSpec a.model a.eps a.alpha X0 y a.num_iter := by
  have h : ∀ n, (a.step X0 y)^[n] X0 =
      basicIterSpec a.model a.eps a.alpha X0 y n := by
    intro n
    induction n with
    | zero => rfl
    | succ k ih => rw [Function.iterate_succ_apply', ih]; rfl
  exact h a.num_iter

/-- C5: `IterativeLeastLikely.__call__` computes the pseudo-target once,
before the loop, from the classifier's prediction on the original clean
batch, and each of its `num_iter` iterations is
`X ← X - alpha * sign(g)` against that fixed pseudo-target, followed by the
same ball projection and [0,1] clip as BasicIter. -/
theorem C5_iterative_least_likely_formula (a : IterativeLeastLikely)
    (X0 : Img) :
    (a.call X0).2 = iterativeLeastLikelySpec a.model a.eps a.alpha X0
      a.num_iter := by
  have h : ∀ n, (a.step X0 ((a.model.forward X0).map argminIdx))^[n] X0 =
      iterLLLoop a.model a.eps a.alpha X0
        ((a.model.forward X0).map argminIdx) n := by
    intro n
    induction n with
    | zero => rfl
    | succ k ih => rw [Function.iterate_succ_apply', ih]; rfl
  exact h a.num_iter

/-- C6: `RandomPlusFgsm.__call__` adds the per-element initial perturbation
`2 * eps * u - eps` (which lies in `[-eps, eps]` whenever the uniform sample
`u` lies in [0,1] and `eps ≥ 0`), evaluates the gradient at that randomized
point, adds `alpha * sign(g)` once, clips into `[X0 - eps, X0 + eps]` and
then into [0,1]; given the sample `u` the result is a deterministic function
of the inputs, so all randomness comes from the initial delta. -/
theorem C6_random_plus_fgsm_formula (a : RandomPlusFgsm) (u X : Img)
    (y : Labels) :
    (a.call u X y).2 = randomPlusFgsmSpec a.model a.eps a.alpha u X y ∧
    (0 ≤ a.eps → ∀ i, i < u.length → 0 ≤ u.getD i 0 → u.getD i 0 ≤ 1 →
      -a.eps ≤ (randomDelta a.eps u).getD i 0 ∧
        (randomDelta a.eps u).getD i 0 ≤ a.eps) := by
  refine ⟨rfl, ?_⟩
  intro heps i hi hu0 hu1
  rw [randomDelta, getD_map_lt _ _ i hi]
  constructor
  · nlinarith [mul_nonneg (mul_nonneg (by norm_num : (0:ℚ) ≤ 2) heps) hu0]
  · nlinarith [mul_le_of_le_one_right
      (mul_nonneg (by norm_num : (0:ℚ) ≤ 2) heps) hu1]

/-! ### Helper lemmas for the zero-budget and single-step claims -/

/-- Adding an everywhere-zero tensor (given it is long enough) is the
identity. -/
lemma addT_map_zero (f : ℚ → ℚ) (hf : ∀ v, f v = 0) :
    ∀ (X t : Img), X.length ≤ t.length → addT X (t.map f) = X := by
  intro X
  induction X with
  | nil => intro t h; rfl
  | cons x xs ih =>
    intro t h
    cases t with
    | nil => simp at h
    | cons v vs =>
      simp only [addT, List.map_cons, List.zipWith_cons_cons, hf, add_zero]
      exact congrArg (x :: ·) (ih vs (by simp only [List.length_cons] at h; omega))

/-- Subtracting an everywhere-zero tensor (given it is long enough) is the
identity. -/
lemma subT_map_zero (f : ℚ → ℚ) (hf : ∀ v, f v = 0) :
    ∀ (X t : Img), X.length ≤ t.length → subT X (t.map f) = X := by
  intro X
  induction X with
  | nil => intro t h; rfl
  | cons x xs ih =>
    intro t h
    cases t with
    | nil => simp at h
    | cons v vs =>
      simp only [subT, List.map_cons, List.zipWith_cons_cons, hf, sub_zero]
      exact congrArg (x :: ·) (ih vs (by simp only [List.length_cons] at h; omega))

/-- Clipping with identical lower and upper tensor bounds returns the bound,
provided the clipped tensor is long enough. -/
lemma clipT_same : ∀ (W L : Img), L.length ≤ W.length → clipT W L L = L := by
  intro W
  induction W with
  | nil =>
    intro L h
    cases L with
    | nil => rfl
    | cons c cs => simp at h
  | cons w ws ih =>
    intro L h
    cases L with
    | nil => rfl
    | cons c cs =>
      simp only [clipT, clip1_same]
      exact congrArg (c :: ·) (ih cs (by simp only [List.length_cons] at h; omega))

/-- Clipping a batch already in [0,1] to [0,1] is the identity. -/
lemma clipC01_of_range01 : ∀ (t : Img), Range01 t → clipC t 0 1 = t := by
  intro t
  induction t with
  | nil => intro _; rfl
  | cons x xs ih =>
    intro h
    have hx := h 0 (by simp)
    simp only [List.getD_cons_zero] at hx
    have hxs : Range01 xs := by
      intro i hi
      have := h (i + 1) (by simp only [List.length_cons]; omega)
      simpa using this
    have hcx : clip1 x 0 1 = x := by
      unfold clip1
      rw [min_eq_left hx.2, max_eq_right hx.1]
    simp only [clipC, List.map_cons, hcx]
    exact congrArg (x :: ·) (ih hxs)

/-- Mapping subtraction of zero is the identity. -/
lemma map_sub_zeroQ (l : Img) : l.map (fun v => v - (0 : ℚ)) = l := by
  simp

/-- Mapping addition of zero is the identity. -/
lemma map_add_zeroQ (l : Img) : l.map (fun v => v + (0 : ℚ)) = l := by
  simp

/-- A sign step scaled by a nonnegative `eps` is bounded by `eps`. -/
lemma abs_eps_tfSign_le (eps : ℚ) (heps : 0 ≤ eps) (z : ℚ) :
    |eps * tfSign z| ≤ eps := by
  rw [abs_mul, abs_of_nonneg heps]
  calc eps * |tfSign z| ≤ eps * 1 :=
        mul_le_mul_of_nonneg_left (abs_tfSign_le z) heps
    _ = eps := mul_one eps

/-- C7: for Fgsm and OneStepLeastLikely on a clean batch with values in
[0,1] and an admissible (nonnegative) `eps`, every element of the result
differs from the corresponding clean element by at most `eps` in absolute
value, although these two attacks apply only the [0,1] clip and no separate
ball clip. -/
theorem C7_single_step_ball_bound (aF : Fgsm) (aL : OneStepLeastLikely)
    (clean : Img) (y : Labels) (hclean : Range01 clean)
    (hF : 0 ≤ aF.eps) (hL : 0 ≤ aL.eps) :
    (∀ i, i < ((aF.call clean y).2).length →
      |((aF.call clean y).2).getD i 0 - clean.getD i 0| ≤ aF.eps) ∧
    (∀ i, i < ((aL.call clean).2).length →
      |((aL.call clean).2).getD i 0 - clean.getD i 0| ≤ aL.eps) := by
  constructor
  · intro i hi
    have hi2 : i <
        (addT clean (smulT aF.eps (signT (aF.model.gradLoss y clean)))).length := by
      simpa [Fgsm.call, clipC] using hi
    obtain ⟨hic, hip, hval⟩ := getD_zipWith_lt _ clean _ i hi2
    have hg : i < (aF.model.gradLoss y clean).length := by
      simpa [smulT, signT] using hip
    have hPval : (smulT aF.eps (signT (aF.model.gradLoss y clean))).getD i 0
        = aF.eps * tfSign ((aF.model.gradLoss y clean).getD i 0) := by
      rw [smulT, getD_map_lt _ _ i (by simpa [signT] using hg), signT,
        getD_map_lt _ _ i hg]
    have hout : ((aF.call clean y).2).getD i 0
        = clip1 (clean.getD i 0
            + aF.eps * tfSign ((aF.model.gradLoss y clean).getD i 0)) 0 1 := by
      show (clipC (addT clean
          (smulT aF.eps (signT (aF.model.gradLoss y clean)))) 0 1).getD i 0 = _
      rw [clipC, getD_map_lt _ _ i hi2, addT, hval, hPval]
    rw [hout]
    obtain ⟨hc0, hc1⟩ := hclean i hic
    obtain ⟨hblo, hbhi⟩ := abs_le.mp
      (abs_eps_tfSign_le aF.eps hF ((aF.model.gradLoss y clean).getD i 0))
    exact (clip01_ball _ _ _ hc0 hc1 (by linarith) (by linarith)).1
  · intro i hi
    have hi2 : i < (subT clean (smulT aL.eps (signT (aL.model.gradLoss
        ((aL.model.forward clean).map argminIdx) clean)))).length := by
      simpa [OneStepLeastLikely.call, clipC] using hi
    obtain ⟨hic, hip, hval⟩ := getD_zipWith_lt _ clean _ i hi2
    have hg : i < (aL.model.gradLoss
        ((aL.model.forward clean).map argminIdx) clean).length := by
      simpa [smulT, signT] using hip
    have hPval : (smulT aL.eps (signT (aL.model.gradLoss
        ((aL.model.forward clean).map argminIdx) clean))).getD i 0
        = aL.eps * tfSign ((aL.model.gradLoss
            ((aL.model.forward clean).map argminIdx) clean).getD i 0) := by
      rw [smulT, getD_map_lt _ _ i (by simpa [signT] using hg), signT,
        getD_map_lt _ _ i hg]
    have hout : ((aL.call clean).2).getD i 0
        = clip1 (clean.getD i 0
            - aL.eps * tfSign ((aL.model.gradLoss
                ((aL.model.forward clean).map argminIdx) clean).getD i 0)) 0 1 := by
      show (clipC (subT clean (smulT aL.eps (signT (aL.model.gradLoss
          ((aL.model.forward clean).map argminIdx) clean)))) 0 1).getD i 0 = _
      rw [clipC, getD_map_lt _ _ i hi2, subT, hval, hPval]
    rw [hout]
    obtain ⟨hc0, hc1⟩ := hclean i hic
    obtain ⟨hblo, hbhi⟩ := abs_le.mp
      (abs_eps_tfSign_le aL.eps hL ((aL.model.gradLoss
        ((aL.model.forward clean).map argminIdx) clean).getD i 0))
    exact (clip01_ball _ _ _ hc0 hc1 (by linarith) (by linarith)).1

/-- C8: every attack constructed with `eps = 0` (any `alpha`, any
`num_iter`), invoked on a clean batch with values in [0,1] (with a
shape-preserving gradient collaborator, and for the randomized attack a
uniform sample of the batch's shape), returns exactly the clean input
clipped element-wise to [0,1]. -/
theorem C8_eps_zero_identity (m : Model)
    (hm : ∀ y X, (m.gradLoss y X).length = X.length)
    (alpha : ℚ) (n : ℕ) (clean u : Img) (y : Labels)
    (hclean : Range01 clean) (hu : u.length = clean.length) :
    ((Fgsm.init m 0).call clean y).2 = clipC clean 0 1 ∧
    ((OneStepLeastLikely.init m 0).call clean).2 = clipC clean 0 1 ∧
    ((BasicIter.init m 0 alpha n).call clean y).2 = clipC clean 0 1 ∧
    ((IterativeLeastLikely.init m 0 alpha n).call clean).2 = clipC clean 0 1 ∧
    ((RandomPlusFgsm.init m 0 alpha).call u clean y).2 = clipC clean 0 1 := by
  have hsignlen : ∀ (yl : Labels) (X : Img), X = clean →
      clean.length ≤ (signT (m.gradLoss yl X)).length := by
    intro yl X hX
    subst hX
    simp [signT, hm]
  have hWlen : ∀ (yl : Labels) (c : ℚ),
      clean.length ≤ (addT clean (smulT c (signT (m.gradLoss yl clean)))).length := by
    intro yl c
    simp [addT, smulT, signT, hm]
  have hWlenSub : ∀ (yl : Labels) (c : ℚ),
      clean.length ≤ (subT clean (smulT c (signT (m.gradLoss yl clean)))).length := by
    intro yl c
    simp [subT, smulT, signT, hm]
  have hclip01 := clipC01_of_range01 clean hclean
  have hBfix : ∀ yl : Labels,
      clipC (clipT (addT clean (smulT alpha (signT (m.gradLoss yl clean))))
        (clean.map (fun v => v - 0)) (clean.map (fun v => v + 0))) 0 1
        = clean := by
    intro yl
    rw [map_sub_zeroQ, map_add_zeroQ, clipT_same _ _ (hWlen yl alpha), hclip01]
  have hIfix : ∀ yl : Labels,
      clipC (clipT (subT clean (smulT alpha (signT (m.gradLoss yl clean))))
        (clean.map (fun v => v - 0)) (clean.map (fun v => v + 0))) 0 1
        = clean := by
    intro yl
    rw [map_sub_zeroQ, map_add_zeroQ, clipT_same _ _ (hWlenSub yl alpha),
      hclip01]
  refine ⟨?_, ?_, ?_, ?_, ?_⟩
  · show clipC (addT clean (smulT 0 (signT (m.gradLoss y clean)))) 0 1
        = clipC clean 0 1
    rw [smulT,
      addT_map_zero (fun v => 0 * v) (fun v => zero_mul v) clean _
        (hsignlen y clean rfl)]
  · show clipC (subT clean (smulT 0 (signT (m.gradLoss
        ((m.forward clean).map argminIdx) clean)))) 0 1 = clipC clean 0 1
    rw [smulT,
      subT_map_zero (fun v => 0 * v) (fun v => zero_mul v) clean _
        (hsignlen ((m.forward clean).map argminIdx) clean rfl)]
  · show ((BasicIter.init m 0 alpha n).step clean y)^[n] clean
        = clipC clean 0 1
    have hfix : (BasicIter.init m 0 alpha n).step clean y clean = clean :=
      hBfix y
    rw [Function.iterate_fixed hfix n, hclip01]
  · show ((IterativeLeastLikely.init m 0 alpha n).step clean
        ((m.forward clean).map argminIdx))^[n] clean = clipC clean 0 1
    have hfix : (IterativeLeastLikely.init m 0 alpha n).step clean
        ((m.forward clean).map argminIdx) clean = clean :=
      hIfix ((m.forward clean).map argminIdx)
    rw [Function.iterate_fixed hfix n, hclip01]
  · have hdelta : addT clean (randomDelta 0 u) = clean := by
      rw [randomDelta]
      exact addT_map_zero (fun v => 2 * 0 * v - 0) (fun v => by ring) clean u
        (le_of_eq hu.symm)
    show clipC (clipT (addT (addT clean (randomDelta 0 u))
        (smulT alpha (signT (m.gradLoss y (addT clean (randomDelta 0 u))))))
        (clean.map (fun v => v - 0)) (clean.map (fun v => v + 0))) 0 1
        = clipC clean 0 1
    rw [hdelta, hBfix y, hclip01]

/-- C9: the four deterministic attacks are pure functions of the classifier,
the hyperparameters and the inputs: two instances (in particular two
invocations of one instance) agreeing on `model`, `eps` and, where present,
`alpha` and `num_iter`, produce identical outputs on the same batch and
labels — no hidden source of randomness or state enters the attack logic. -/
theorem C9_deterministic_attacks (aF bF : Fgsm) (aO bO : OneStepLeastLikely)
    (aB bB : BasicIter) (aI bI : IterativeLeastLikely)
    (hFm : aF.model = bF.model) (hFe : aF.eps = bF.eps)
    (hOm : aO.model = bO.model) (hOe : aO.eps = bO.eps)
    (hBm : aB.model = bB.model) (hBe : aB.eps = bB.eps)
    (hBa : aB.alpha = bB.alpha) (hBn : aB.num_iter = bB.num_iter)
    (hIm : aI.model = bI.model) (hIe : aI.eps = bI.eps)
    (hIa : aI.alpha = bI.alpha) (hIn : aI.num_iter = bI.num_iter)
    (X : Img) (y : Labels) :
    (aF.call X y).2 = (bF.call X y).2 ∧
    (aO.call X).2 = (bO.call X).2 ∧
    (aB.call X y).2 = (bB.call X y).2 ∧
    (aI.call X).2 = (bI.call X).2 := by
  refine ⟨?_, ?_, ?_, ?_⟩
  · simp only [Fgsm.call, hFm, hFe]
  · simp only [OneStepLeastLikely.call, hOm, hOe]
  · have hs : aB.step X y = bB.step X y := by
      funext Z
      simp only [BasicIter.step, hBm, hBe, hBa]
    simp only [BasicIter.call, hs, hBn]
  · have hs : ∀ yl, aI.step X yl = bI.step X yl := by
      intro yl
      funext Z
      simp only [IterativeLeastLikely.step, hIm, hIe, hIa]
    simp only [IterativeLeastLikely.call, hIm, hIn, hs]

/-- C10: no `__call__` mutates the attack object — the returned state is the
received one, so `model`, `eps`, `name`, `specifics`, `loss_obj` and (where
present) `alpha` and `num_iter` keep the values set at construction — and
each constructor derives the descriptor string from the hyperparameters at
construction time (a fixed string value stored in the instance, never
recomputed by `__call__`). -/
theorem C10_no_mutation (m : Model) (e al : ℚ) (n : ℕ) :
    (∀ (a : Fgsm) (X : Img) (y : Labels), (a.call X y).1 = a) ∧
    (∀ (a : OneStepLeastLikely) (X : Img), (a.call X).1 = a) ∧
    (∀ (a : BasicIter) (X : Img) (y : Labels), (a.call X y).1 = a) ∧
    (∀ (a : IterativeLeastLikely) (X : Img), (a.call X).1 = a) ∧
    (∀ (a : RandomPlusFgsm) (u X : Img) (y : Labels), (a.call u X y).1 = a) ∧
    ((Fgsm.init m e).model = m ∧ (Fgsm.init m e).eps = e ∧
      (Fgsm.init m e).loss_obj = LossFn.sparseCategoricalCrossentropy ∧
      (Fgsm.init m e).name = some "FGSM" ∧
      (Fgsm.init m e).specifics = some ("FGSM - eps: " ++ fmtFixed 2 e)) ∧
    ((OneStepLeastLikely.init m e).model = m ∧
      (OneStepLeastLikely.init m e).eps = e ∧
      (OneStepLeastLikely.init m e).loss_obj
        = LossFn.sparseCategoricalCrossentropy ∧
      (OneStepLeastLikely.init m e).name
        = some "One Step Least Likely (Step 1.1)" ∧
      (OneStepLeastLikely.init m e).specifics
        = some ("One Step Least Likely (Step 1.1) - eps: " ++ fmtFixed 2 e)) ∧
    ((BasicIter.init m e al n).model = m ∧ (BasicIter.init m e al n).eps = e ∧
      (BasicIter.init m e al n).alpha = al ∧
      (BasicIter.init m e al n).num_iter = n ∧
      (BasicIter.init m e al n).loss_obj
        = LossFn.sparseCategoricalCrossentropy ∧
      (BasicIter.init m e al n).name = some "Basic Iterative Method" ∧
      (BasicIter.init m e al n).specifics
        = some ("Basic Iterative Method - eps: " ++ fmtFixed 2 e
            ++ " - alpha: " ++ fmtFixed 4 al ++ " - num_iter: "
            ++ toString n)) ∧
    ((IterativeLeastLikely.init m e al n).model = m ∧
      (IterativeLeastLikely.init m e al n).eps = e ∧
      (IterativeLeastLikely.init m e al n).alpha = al ∧
      (IterativeLeastLikely.init m e al n).num_iter = n ∧
      (IterativeLeastLikely.init m e al n).loss_obj
        = LossFn.sparseCategoricalCrossentropy ∧
      (IterativeLeastLikely.init m e al n).name
        = some "Iterative Least Likely (Iter 1.1)" ∧
      (IterativeLeastLikely.init m e al n).specifics
        = some ("Iterative Least Likely (Iter 1.1) - eps: " ++ fmtFixed 2 e
            ++ " - alpha: " ++ fmtFixed 4 al ++ " - num_iter: "
            ++ toString n)) ∧
    ((RandomPlusFgsm.init m e al).model = m ∧
      (RandomPlusFgsm.init m e al).eps = e ∧
      (RandomPlusFgsm.init m e al).alpha = al ∧
      (RandomPlusFgsm.init m e al).loss_obj
        = LossFn.sparseCategoricalCrossentropy ∧
      (RandomPlusFgsm.init m e al).name = some "Random Plus FGSM" ∧
      (RandomPlusFgsm.init m e al).specifics
        = some ("Random Plus FGSM - eps: " ++ fmtFixed 2 e ++ " - alpha: "
            ++ fmtFixed 4 al)) := by
  refine ⟨fun a X y => rfl, fun a X => rfl, fun a X y => rfl, fun a X => rfl,
    fun a u X y => rfl, ?_, ?_, ?_, ?_, ?_⟩ <;> and_intros <;> rfl

/-! ### Concrete instantiations -/

/-- Concrete two-class classifier used to instantiate the theorems: the
prediction row for a pixel value `v` is `[v, 1 - v]`, and the gradient
collaborator returns an all-ones tensor of the input's shape (so it is
shape-preserving, as TensorFlow's `tape.gradient` is). -/
def mTest : Model where
  forward := fun X => X.map (fun v => [v, 1 - v])
  gradLoss := fun _ X => X.map (fun _ => 1)

/-- A second FGSM instance with the same hyperparameters as
`Fgsm.init mTest (1/4)` but a different descriptor, to instantiate
determinism across distinct instances. -/
def fgsmOther : Fgsm :=
  { toAdversarialAttack :=
      { (Fgsm.init mTest (1/4)).toAdversarialAttack with
        specifics := some "relabelled instance" } }

/-- Witness for C1: the concrete clean batch `[0, 1/2, 1]` is in range, the
budget `1/4` is admissible, and the BasicIter iterate after 2 iterations
satisfies the ball-and-range invariant. -/
theorem C1_witness :
    Range01 [0, 1/2, 1] ∧
    (0:ℚ) ≤ (BasicIter.init mTest (1/4) (1/10) 2).eps ∧
    BallRange (BasicIter.init mTest (1/4) (1/10) 2).eps [0, 1/2, 1]
      (((BasicIter.init mTest (1/4) (1/10) 2).step [0, 1/2, 1] [0])^[2]
        [0, 1/2, 1]) := by
  have hclean : Range01 [0, 1/2, 1] := by
    intro i hi
    simp only [List.length_cons, List.length_nil] at hi
    interval_cases i <;>
      norm_num [List.getD_cons_zero, List.getD_cons_succ]
  refine ⟨hclean, by norm_num [BasicIter.init, AdversarialAttack.init], ?_⟩
  exact (C1_ball_and_range_invariant (BasicIter.init mTest (1/4) (1/10) 2)
    (IterativeLeastLikely.init mTest (1/4) (1/10) 2)
    (RandomPlusFgsm.init mTest (1/4) (1/10)) [0, 1/2, 1] [0, 1/2, 1] [0]
    hclean (by norm_num [BasicIter.init, AdversarialAttack.init])
    (by norm_num [IterativeLeastLikely.init, AdversarialAttack.init])
    (by norm_num [RandomPlusFgsm.init, AdversarialAttack.init])).1 2

/-- Witness for C6: at the concrete sample `[0, 1/2, 1]` the initial random
delta at index 1 lies in `[-eps, eps]` for `eps = 1/4`. -/
theorem C6_witness :
    -(RandomPlusFgsm.init mTest (1/4) (1/10)).eps ≤
      (randomDelta (RandomPlusFgsm.init mTest (1/4) (1/10)).eps
        [0, 1/2, 1]).getD 1 0 ∧
    (randomDelta (RandomPlusFgsm.init mTest (1/4) (1/10)).eps
        [0, 1/2, 1]).getD 1 0 ≤
      (RandomPlusFgsm.init mTest (1/4) (1/10)).eps :=
  (C6_random_plus_fgsm_formula (RandomPlusFgsm.init mTest (1/4) (1/10))
    [0, 1/2, 1] [0, 1/2, 1] [0]).2
    (by norm_num [RandomPlusFgsm.init, AdversarialAttack.init])
    1 (by norm_num)
    (by norm_num [List.getD_cons_zero, List.getD_cons_succ])
    (by norm_num [List.getD_cons_zero, List.getD_cons_succ])

/-- Witness for C7: on the clean batch `[0, 1/2, 1]` the first pixel of the
FGSM output with `eps = 1/4` is within `1/4` of the clean pixel. -/
theorem C7_witness :
    Range01 [0, 1/2, 1] ∧
    |(((Fgsm.init mTest (1/4)).call [0, 1/2, 1] [0]).2).getD 0 0
        - ([0, 1/2, 1] : Img).getD 0 0| ≤ (Fgsm.init mTest (1/4)).eps := by
  have hclean : Range01 [0, 1/2, 1] := by
    intro i hi
    simp only [List.length_cons, List.length_nil] at hi
    interval_cases i <;>
      norm_num [List.getD_cons_zero, List.getD_cons_succ]
  refine ⟨hclean, ?_⟩
  exact (C7_single_step_ball_bound (Fgsm.init mTest (1/4))
    (OneStepLeastLikely.init mTest (1/4)) [0, 1/2, 1] [0] hclean
    (by norm_num [Fgsm.init, AdversarialAttack.init])
    (by norm_num [OneStepLeastLikely.init, AdversarialAttack.init])).1 0
    (by norm_num [Fgsm.call, Fgsm.init, AdversarialAttack.init, clipC, addT,
      smulT, signT, mTest])

/-- Witness for C8: with `eps = 0` both the FGSM and the BasicIter attack
return the clipped clean batch `[0, 1/2, 1]`. -/
theorem C8_witness :
    ((Fgsm.init mTest 0).call [0, 1/2, 1] [0]).2 = clipC [0, 1/2, 1] 0 1 ∧
    ((BasicIter.init mTest 0 (1/10) 2).call [0, 1/2, 1] [0]).2
      = clipC [0, 1/2, 1] 0 1 := by
  have hclean : Range01 [0, 1/2, 1] := by
    intro i hi
    simp only [List.length_cons, List.length_nil] at hi
    interval_cases i <;>
      norm_num [List.getD_cons_zero, List.getD_cons_succ]
  have h := C8_eps_zero_identity mTest (fun y X => by simp [mTest]) (1/10) 2
    [0, 1/2, 1] [0, 1/2, 1] [0] hclean rfl
  exact ⟨h.1, h.2.2.1⟩

/-- Witness for C9: two FGSM instances with the same model and budget but
different descriptors produce the same output on a concrete batch. -/
theorem C9_witness :
    ((Fgsm.init mTest (1/4)).call [0, 1/2, 1] [0]).2
      = (fgsmOther.call [0, 1/2, 1] [0]).2 :=
  (C9_deterministic_attacks (Fgsm.init mTest (1/4)) fgsmOther
    (OneStepLeastLikely.init mTest (1/4)) (OneStepLeastLikely.init mTest (1/4))
    (BasicIter.init mTest (1/4) (1/10) 2) (BasicIter.init mTest (1/4) (1/10) 2)
    (IterativeLeastLikely.init mTest (1/4) (1/10) 2)
    (IterativeLeastLikely.init mTest (1/4) (1/10) 2)
    rfl rfl rfl rfl rfl rfl rfl rfl rfl rfl rfl rfl [0, 1/2, 1] [0]).1
